import Mathlib

/-!
Verification development for the Relay repository (molguin92/Relay).

The embedding covers:
  * `distributions.py`: the five delay-distribution classes and their
    `sample` methods.  Python floats are modelled as `ℚ`; each call to a
    `np.random.*` routine is modelled by an explicit `draw : ℚ` argument
    standing for the value the underlying generator would have produced.
  * `main.py`: `parse_IP_address`, the `avail_distributions` registry and
    the `from_file` configuration loader, with Python strings modelled as
    `List Char` (ASCII fragment).
  * the forwarding pump of `relay.py` (imported by `main.py` but absent
    from the sources available here), modelled from the specification.
-/

/-- The five distribution variants of `distributions.py`.  Each constructor
carries exactly the fields the Python `__init__` stores on `self`
(the memoised `self.dist = partial(np.random...)` closure is determined by
those fields and is not stored separately). -/
inductive Distribution where
  | ConstantDistribution (constant : ℚ)
  | GaussianDistribution (mean std_dev : ℚ) (positive : Bool)
  | ExponentialDistribution (scale : ℚ)
  | LogNormalDistribution (mean std_dev : ℚ)
  | PoissonDistribution (mean : ℚ)
deriving DecidableEq

/-- `sample` of `distributions.py`.  `draw` models the value returned by the
single `np.random.*` call the method makes (ignored by
`ConstantDistribution`, which makes none).  The method body of each variant
performs no assignment to `self`, so the returned post-state of the object
is the object itself; we return it explicitly to make that checkable. -/
def Distribution.sample : Distribution → ℚ → ℚ × Distribution
  | d@(.ConstantDistribution c), _ => (c, d)
  | d@(.GaussianDistribution _ _ pos), draw =>
      (if pos then max draw 0 else draw, d)
  | d@(.ExponentialDistribution _), draw => (draw, d)
  | d@(.LogNormalDistribution _ _), draw => (draw, d)
  | d@(.PoissonDistribution _), draw => (draw, d)

/-- The value returned by one `sample()` call. -/
def sampleVal (d : Distribution) (draw : ℚ) : ℚ := (d.sample draw).1

/-- A sequence of `sample()` calls on the same object, one generator draw per
call, threading the object state through the calls. -/
def runSamples : Distribution → List ℚ → List ℚ × Distribution
  | d, [] => ([], d)
  | d, draw :: rest =>
    match d.sample draw with
    | (v, d2) =>
      match runSamples d2 rest with
      | (vs, d3) => (v :: vs, d3)

/-- Modelled from the spec: `DistributionDefaults.GAUSSIAN_STRICTLY_POSITIVE`
lives in `defaults.py`, which is not among the available sources.  The spec
says only that the default is a fixed system constant; the value chosen here
is arbitrary and no theorem depends on it. -/
def GAUSSIAN_STRICTLY_POSITIVE : Bool := true

/-- Modelled from the spec: the forwarding pump of `relay.py` (absent from
the available sources) reads up to `chunk_size` bytes from the source
socket and writes each chunk fully to the destination before sleeping.
`pumpChunks n xs` is the list of chunks the pump reads from a stream whose
total content is `xs`; the bytes the destination receives are their
concatenation.  A `chunk_size` of `0` would make `recv` return an empty
read, which the pump treats as end of stream, forwarding nothing. -/
def pumpChunks (n : ℕ) (xs : List α) : List (List α) :=
  if h : n = 0 ∨ xs.isEmpty then []
  else (xs.take n) :: pumpChunks n (xs.drop n)
termination_by xs.length
decreasing_by
  simp only [List.length_drop]
  rcases Nat.eq_zero_or_pos n with h0 | h0
  · exact absurd (Or.inl h0) h
  · have hx : ¬ xs.isEmpty := fun hc => h (Or.inr hc)
    have : 0 < xs.length := by
      cases xs with
      | nil => simp [List.isEmpty] at hx
      | cons a t => simp
    omega

/-! ## Strings and `parse_IP_address` (`main.py`)

Python strings are modelled as `List Char`, restricted to ASCII; all string
literals appearing in the repository's relevant paths are ASCII. -/

/-- `str.split(sep)` of Python for a one-character separator: splits on every
occurrence of `sep`, keeping empty fields, and returns one field even for an
empty input. -/
def splitOnChar (sep : Char) : List Char → List (List Char)
  | [] => [[]]
  | c :: rest =>
    if c = sep then [] :: splitOnChar sep rest
    else
      match splitOnChar sep rest with
      | [] => [[c]]
      | h :: t => (c :: h) :: t

/-- ASCII decimal digit, as accepted by `int()` and `ipaddress` (the model
omits non-ASCII Unicode digits). -/
def isPyDigit (c : Char) : Bool := ('0' ≤ c) && (c ≤ '9')

/-- Numeric value of a digit string read in base 10. -/
def digitsVal (cs : List Char) : ℕ :=
  cs.foldl (fun a c => 10 * a + (c.toNat - ('0').toNat)) 0

/-- The whitespace characters `str.strip()` removes (ASCII fragment). -/
def isPySpace (c : Char) : Bool :=
  (c = ' ') || (c = '\t') || (c = '\n') || (c = '\x0d') || (c = '\x0b') ||
    (c = '\x0c')

/-- `str.strip()`: drop leading and trailing whitespace. -/
def stripWs (cs : List Char) : List Char :=
  ((cs.dropWhile isPySpace).reverse.dropWhile isPySpace).reverse

/-- Continuation of the digit grammar of `int()`: after an accepted digit,
either the string ends, or a digit follows, or a single underscore followed
by a digit follows. -/
def pyDigitsTail : List Char → Bool
  | [] => true
  | ['_'] => false
  | '_' :: c :: rest => isPyDigit c && pyDigitsTail rest
  | c :: rest => isPyDigit c && pyDigitsTail rest

/-- The digit part accepted by Python `int()`: one or more digits with single
underscores allowed between digits (`"1_000"`), never leading, trailing or
doubled. -/
def pyDigitsOk (cs : List Char) : Bool :=
  match cs with
  | [] => false
  | c :: rest => isPyDigit c && pyDigitsTail rest

/-- Value of an accepted digit part: underscores are ignored. -/
def pyDigitsVal (cs : List Char) : ℕ := digitsVal (cs.filter isPyDigit)

/-- Python `int(s)` for a base-10 string: optional surrounding whitespace,
optional sign, then the digit grammar; `none` models the `ValueError`. -/
def pyInt (cs : List Char) : Option ℤ :=
  match stripWs cs with
  | '+' :: rest => if pyDigitsOk rest then some (pyDigitsVal rest) else none
  | '-' :: rest =>
      if pyDigitsOk rest then some (-(pyDigitsVal rest : ℤ)) else none
  | t => if pyDigitsOk t then some (pyDigitsVal t) else none

/-- One dotted-quad octet as accepted by `ipaddress.IPv4Address`: 1 to 3
ASCII digits, no leading zero unless the octet is exactly `"0"`, value at
most 255. -/
def isOctet (cs : List Char) : Bool :=
  (!cs.isEmpty) && (cs.length ≤ 3) && cs.all isPyDigit &&
    (match cs with
     | '0' :: rest => rest.isEmpty
     | _ => true) &&
    (digitsVal cs ≤ 255)

/-- `ipaddress.ip_address(s)` succeeding on string `s`.  The model covers the
IPv4 grammar only: every IPv6 literal contains a colon, and the only caller,
`parse_IP_address`, applies this to a colon-free fragment, so on that domain
the restriction is exact. -/
def ip_address_ok (cs : List Char) : Bool :=
  let parts := splitOnChar '.' cs
  (parts.length == 4) && parts.all isOctet

/-- `parse_IP_address` of `main.py`: split the string on `':'` into exactly
two parts, require the first to be an IP literal, convert the second with
`int()` and assert it is at most 65535.  `none` models the `RuntimeError`
raised when any step fails; note the code never checks `0 ≤ port`. -/
def parse_IP_address (address : List Char) : Option (List Char × ℤ) :=
  match splitOnChar ':' address with
  | [ip, port] =>
    if ip_address_ok ip then
      match pyInt port with
      | some p => if p ≤ 65535 then some (ip, p) else none
      | none => none
    else none
  | _ => none

/-! ## Configuration loading (`from_file` of `main.py`) -/

/-- A TOML parameter value as passed to a distribution constructor. -/
inductive PyVal where
  | num (v : ℚ)
  | boolean (b : Bool)
deriving DecidableEq

/-- The five keys of the `avail_distributions` dictionary, as tags. -/
inductive DistKind where
  | constantK
  | gaussianK
  | exponentialK
  | logNormalK
  | poissonK
deriving DecidableEq

/-- `str.upper()` (ASCII fragment). -/
def upperStr (cs : List Char) : List Char := cs.map Char.toUpper

/-- `avail_distributions` of `main.py`: a dictionary keyed by
`cls.__name__.upper()` for every subclass of `Distribution`, i.e. exactly
the five classes of `distributions.py`; `none` models the `KeyError`. -/
def avail_distributions (nm : List Char) : Option DistKind :=
  if nm = ("CONSTANTDISTRIBUTION").data then some .constantK
  else if nm = ("GAUSSIANDISTRIBUTION").data then some .gaussianK
  else if nm = ("EXPONENTIALDISTRIBUTION").data then some .exponentialK
  else if nm = ("LOGNORMALDISTRIBUTION").data then some .logNormalK
  else if nm = ("POISSONDISTRIBUTION").data then some .poissonK
  else none

/-- The keys of `avail_distributions`, spelled out. -/
def registryNames : List (List Char) :=
  [("CONSTANTDISTRIBUTION").data, ("GAUSSIANDISTRIBUTION").data,
   ("EXPONENTIALDISTRIBUTION").data, ("LOGNORMALDISTRIBUTION").data,
   ("POISSONDISTRIBUTION").data]

/-- First binding of a keyword in a parameter dictionary. -/
def lookupParam (k : List Char) : List (List Char × PyVal) → Option PyVal
  | [] => none
  | q :: rest => if q.1 = k then some q.2 else lookupParam k rest

/-- A numeric keyword argument. -/
def getNum (ps : List (List Char × PyVal)) (k : List Char) : Option ℚ :=
  match lookupParam k ps with
  | some (.num v) => some v
  | _ => none

/-- Every supplied keyword is a parameter the constructor declares
(`cls(**params)` raises `TypeError` on an unexpected keyword). -/
def keysAllowed (ps : List (List Char × PyVal))
    (allowed : List (List Char)) : Bool :=
  ps.all (fun q => allowed.any (fun a => a = q.1))

/-- `cls(**params)` for each distribution class: checks the supplied
keywords against the constructor signature of `distributions.py` and builds
the object; `none` models the `TypeError` for a missing or unexpected
keyword (the model also requires numeric values for the float parameters and
a boolean for `strictly_positive`). -/
def applyParams : DistKind → List (List Char × PyVal) → Option Distribution
  | .constantK, ps =>
    if keysAllowed ps [("constant").data] then
      match getNum ps (("constant").data) with
      | some v => some (.ConstantDistribution v)
      | none => none
    else none
  | .gaussianK, ps =>
    if keysAllowed ps
        [("mean").data, ("std_dev").data, ("strictly_positive").data] then
      match getNum ps (("mean").data), getNum ps (("std_dev").data) with
      | some m, some s =>
        match lookupParam (("strictly_positive").data) ps with
        | none => some (.GaussianDistribution m s GAUSSIAN_STRICTLY_POSITIVE)
        | some (.boolean b) => some (.GaussianDistribution m s b)
        | some (.num _) => none
      | _, _ => none
    else none
  | .exponentialK, ps =>
    if keysAllowed ps [("scale").data] then
      match getNum ps (("scale").data) with
      | some v => some (.ExponentialDistribution v)
      | none => none
    else none
  | .logNormalK, ps =>
    if keysAllowed ps [("mean").data, ("std_dev").data] then
      match getNum ps (("mean").data), getNum ps (("std_dev").data) with
      | some m, some s => some (.LogNormalDistribution m s)
      | _, _ => none
    else none
  | .poissonK, ps =>
    if keysAllowed ps [("mean").data] then
      match getNum ps (("mean").data) with
      | some v => some (.PoissonDistribution v)
      | none => none
    else none

/-- Modelled from the spec for the field list only: `relay.py` is imported
by `main.py` but absent from the available sources, so the fields are taken
from the keyword arguments `main.py` passes to the `DuplexRelay`
constructor. -/
structure DuplexRelay where
  listen_host : List Char
  listen_port : ℤ
  connect_host : List Char
  connect_port : ℤ
  chunk_size : ℤ
  delay_dist : Distribution
deriving DecidableEq

/-- The `distribution` table of one `proxies` entry. -/
structure DistributionConfig where
  name : List Char
  params : List (List Char × PyVal)
deriving DecidableEq

/-- One entry of the `proxies` list of a TOML configuration file. -/
structure ProxyEntry where
  bind_addr : List Char
  connect_addr : List Char
  chunk_size : Option ℤ
  distribution : DistributionConfig
deriving DecidableEq

/-- One iteration of the construction loop of `from_file` (`main.py`):
parse both addresses, default `chunk_size` to 4096, resolve the uppercased
distribution name in `avail_distributions` and call the constructor; `none`
models any exception escaping the iteration. -/
def processEntry (e : ProxyEntry) : Option DuplexRelay := do
  let b ← parse_IP_address e.bind_addr
  let c ← parse_IP_address e.connect_addr
  let k ← avail_distributions (upperStr e.distribution.name)
  let d ← applyParams k e.distribution.params
  some { listen_host := b.1, listen_port := b.2,
         connect_host := c.1, connect_port := c.2,
         chunk_size := e.chunk_size.getD 4096,
         delay_dist := d }

/-- The construction loop of `from_file`: the whole list of relays is built
before any is started, and the first exception aborts the command, so the
result is all-or-nothing. -/
def from_file : List ProxyEntry → Option (List DuplexRelay)
  | [] => some []
  | e :: rest => do
    let r ← processEntry e
    let rs ← from_file rest
    some (r :: rs)

/-- The start loop `for p in proxies: p.start()` of `from_file`.
Modelled from the spec for the bind outcome: `DuplexRelay.start` (absent
`relay.py`) raises `BindError` when the listen address is unavailable, which
`bindOk` encodes as an oracle; the loop itself has no error handling, so an
exception ends it.  Returns the relays actually started and whether the loop
completed. -/
def startRelays (bindOk : DuplexRelay → Bool) :
    List DuplexRelay → List DuplexRelay × Bool
  | [] => ([], true)
  | r :: rest =>
    if bindOk r then
      match startRelays bindOk rest with
      | (s, ok) => (r :: s, ok)
    else ([], false)

/-- The relays a `from_file` run actually starts: none when configuration
loading fails, otherwise those the start loop reaches. -/
def startedRelays (cfg : List ProxyEntry) (bindOk : DuplexRelay → Bool) :
    List DuplexRelay :=
  match from_file cfg with
  | none => []
  | some rs => (startRelays bindOk rs).1

/-- Two characters equal up to letter casing. -/
def charUpToCase (a b : Char) : Bool :=
  (a == b) || (a.isAlpha && b.isAlpha && (a.toUpper == b.toUpper))

/-- Two strings that differ only in the letter casing of corresponding
characters. -/
def strUpToCase : List Char → List Char → Bool
  | [], [] => true
  | a :: xs, b :: ys => charUpToCase a b && strUpToCase xs ys
  | _, _ => false

/-! ## Concrete configuration fixtures -/

/-- A `proxies` entry that loads without error. -/
def goodEntry : ProxyEntry :=
  { bind_addr := ("127.0.0.1:9000").data,
    connect_addr := ("127.0.0.1:9100").data,
    chunk_size := none,
    distribution := { name := ("ConstantDistribution").data,
                      params := [(("constant").data, .num 1)] } }

/-- A `proxies` entry whose distribution name matches no registry key. -/
def badNameEntry : ProxyEntry :=
  { bind_addr := ("127.0.0.1:9001").data,
    connect_addr := ("127.0.0.1:9101").data,
    chunk_size := none,
    distribution := { name := ("FOO").data,
                      params := [(("constant").data, .num 1)] } }

/-- A `proxies` entry using the short identifier `Constant` instead of the
class name. -/
def shortNameEntry : ProxyEntry :=
  { bind_addr := ("127.0.0.1:9002").data,
    connect_addr := ("127.0.0.1:9102").data,
    chunk_size := none,
    distribution := { name := ("Constant").data,
                      params := [(("constant").data, .num 1)] } }

/-- A relay listening on port 9001. -/
def relayA : DuplexRelay :=
  { listen_host := ("127.0.0.1").data, listen_port := 9001,
    connect_host := ("127.0.0.1").data, connect_port := 9101,
    chunk_size := 4096, delay_dist := .ConstantDistribution 0 }

/-- A relay listening on port 9002. -/
def relayB : DuplexRelay :=
  { listen_host := ("127.0.0.1").data, listen_port := 9002,
    connect_host := ("127.0.0.1").data, connect_port := 9102,
    chunk_size := 4096, delay_dist := .ConstantDistribution 0 }

/-- A bind oracle under which only port 9002 can be bound. -/
def bindOkOnlyB : DuplexRelay → Bool := fun r => r.listen_port == 9002

/-! ## Helper lemmas -/

theorem splitOnChar_ne_nil (sep : Char) (cs : List Char) :
    splitOnChar sep cs ≠ [] := by
  cases cs with
  | nil => simp [splitOnChar]
  | cons c rest =>
    simp only [splitOnChar]
    split
    · simp
    · split <;> simp

theorem splitOnChar_eq_single {sep : Char} :
    ∀ {cs y : List Char}, splitOnChar sep cs = [y] → cs = y := by
  intro cs
  induction cs with
  | nil =>
    intro y h
    simp [splitOnChar] at h
    exact h.symm
  | cons c rest ih =>
    intro y h
    simp only [splitOnChar] at h
    by_cases hc : c = sep
    · rw [if_pos hc] at h
      obtain ⟨h1, h2⟩ := List.cons.inj h
      exact absurd h2 (splitOnChar_ne_nil sep rest)
    · rw [if_neg hc] at h
      cases hr : splitOnChar sep rest with
      | nil => exact absurd hr (splitOnChar_ne_nil sep rest)
      | cons hd tl =>
        rw [hr] at h
        obtain ⟨h1, h2⟩ := List.cons.inj h
        subst h2
        have : rest = hd := ih hr
        subst this
        exact h1.symm ▸ rfl

theorem splitOnChar_eq_pair {sep : Char} :
    ∀ {cs a b : List Char}, splitOnChar sep cs = [a, b] →
      cs = a ++ sep :: b := by
  intro cs
  induction cs with
  | nil => intro a b h; simp [splitOnChar] at h
  | cons c rest ih =>
    intro a b h
    simp only [splitOnChar] at h
    by_cases hc : c = sep
    · rw [if_pos hc] at h
      obtain ⟨h1, h2⟩ := List.cons.inj h
      have : rest = b := splitOnChar_eq_single h2
      subst this
      simp [← h1, hc]
    · rw [if_neg hc] at h
      cases hr : splitOnChar sep rest with
      | nil => exact absurd hr (splitOnChar_ne_nil sep rest)
      | cons hd tl =>
        rw [hr] at h
        obtain ⟨h1, h2⟩ := List.cons.inj h
        subst h2
        have : rest = hd ++ sep :: b := ih hr
        subst this
        simp [← h1]

theorem splitOnChar_of_not_mem {sep : Char} :
    ∀ {cs : List Char}, sep ∉ cs → splitOnChar sep cs = [cs] := by
  intro cs
  induction cs with
  | nil => intro h; rfl
  | cons c rest ih =>
    intro h
    have hc : c ≠ sep := fun hcc => h (hcc ▸ List.mem_cons_self c rest)
    have hrest : sep ∉ rest := fun hm => h (List.mem_cons_of_mem c hm)
    simp only [splitOnChar, if_neg (fun hcc => hc hcc)]
    rw [ih hrest]

theorem splitOnChar_append {sep : Char} :
    ∀ {a b : List Char}, sep ∉ a → sep ∉ b →
      splitOnChar sep (a ++ sep :: b) = [a, b] := by
  intro a
  induction a with
  | nil =>
    intro b ha hb
    simp [splitOnChar, splitOnChar_of_not_mem hb]
  | cons c rest ih =>
    intro b ha hb
    have hc : c ≠ sep := fun hcc => ha (hcc ▸ List.mem_cons_self c rest)
    have hrest : sep ∉ rest := fun hm => ha (List.mem_cons_of_mem c hm)
    simp only [List.cons_append, splitOnChar, if_neg (fun hcc => hc hcc),
      List.append_eq]
    rw [ih hrest hb]

theorem pumpChunks_nil (n : ℕ) : pumpChunks n ([] : List α) = [] := by
  rw [pumpChunks]
  simp

theorem pumpChunks_join_bounded (n : ℕ) (hn : 0 < n) :
    ∀ (m : ℕ) (xs : List α), xs.length ≤ m →
      (pumpChunks n xs).flatten = xs := by
  intro m
  induction m with
  | zero =>
    intro xs hlen
    have hx : xs = [] := List.eq_nil_of_length_eq_zero (Nat.le_zero.mp hlen)
    subst hx
    simp [pumpChunks_nil]
  | succ m ih =>
    intro xs hlen
    rw [pumpChunks]
    split
    · rename_i hc
      rcases hc with hc | hc
      · omega
      · have hx : xs = [] := by
          cases xs with
          | nil => rfl
          | cons a t => simp [List.isEmpty] at hc
        subst hx
        simp
    · rename_i hc
      have hx : xs ≠ [] := by
        intro hh
        exact hc (Or.inr (by simp [hh]))
      have hp : 0 < xs.length := List.length_pos.mpr hx
      have hdrop : (xs.drop n).length ≤ m := by
        simp only [List.length_drop]
        omega
      simp only [List.flatten_cons]
      rw [ih (xs.drop n) hdrop, List.take_append_drop]

theorem pumpChunks_mem_bounded (n : ℕ) (hn : 0 < n) :
    ∀ (m : ℕ) (xs : List α), xs.length ≤ m →
      ∀ c ∈ pumpChunks n xs, c ≠ [] ∧ c.length ≤ n := by
  intro m
  induction m with
  | zero =>
    intro xs hlen c hc
    have hx : xs = [] := List.eq_nil_of_length_eq_zero (Nat.le_zero.mp hlen)
    subst hx
    simp [pumpChunks_nil] at hc
  | succ m ih =>
    intro xs hlen c hc
    rw [pumpChunks] at hc
    split at hc
    · simp at hc
    · rename_i hcond
      have hx : xs ≠ [] := by
        intro hh
        exact hcond (Or.inr (by simp [hh]))
      have hp : 0 < xs.length := List.length_pos.mpr hx
      rcases List.mem_cons.mp hc with hc1 | hc2
      · subst hc1
        constructor
        · intro hempty
          have : (xs.take n).length = 0 := by simp [hempty]
          simp only [List.length_take] at this
          omega
        · simp only [List.length_take]
          omega
      · have hdrop : (xs.drop n).length ≤ m := by
          simp only [List.length_drop]
          omega
        exact ih (xs.drop n) hdrop c hc2

theorem sample_snd (d : Distribution) (draw : ℚ) :
    (d.sample draw).2 = d := by
  cases d <;> rfl

theorem processEntry_none_of_lookup_none (e : ProxyEntry)
    (h : avail_distributions (upperStr e.distribution.name) = none) :
    processEntry e = none := by
  unfold processEntry
  cases hb : parse_IP_address e.bind_addr with
  | none => rfl
  | some b =>
    cases hc : parse_IP_address e.connect_addr with
    | none => simp [Option.bind]
    | some c => simp [Option.bind, h]

theorem from_file_none_of_mem {cfg : List ProxyEntry} {e : ProxyEntry}
    (hmem : e ∈ cfg) (hfail : processEntry e = none) :
    from_file cfg = none := by
  induction cfg with
  | nil => simp at hmem
  | cons x rest ih =>
    rcases List.mem_cons.mp hmem with he | he
    · subst he
      simp [from_file, hfail]
    · cases hx : processEntry x with
      | none => simp [from_file, hx]
      | some r => simp [from_file, hx, ih he]

theorem charUpToCase_toUpper {a b : Char} (h : charUpToCase a b = true) :
    a.toUpper = b.toUpper := by
  simp only [charUpToCase, Bool.or_eq_true, Bool.and_eq_true, beq_iff_eq]
    at h
  cases h with
  | inl h1 => rw [h1]
  | inr h2 => exact h2.2

theorem upperStr_eq_of_strUpToCase :
    ∀ {n1 n2 : List Char}, strUpToCase n1 n2 = true →
      upperStr n1 = upperStr n2 := by
  intro n1
  induction n1 with
  | nil =>
    intro n2 h
    cases n2 with
    | nil => rfl
    | cons b ys => simp [strUpToCase] at h
  | cons a xs ih =>
    intro n2 h
    cases n2 with
    | nil => simp [strUpToCase] at h
    | cons b ys =>
      simp only [strUpToCase, Bool.and_eq_true] at h
      simp only [upperStr, List.map_cons]
      rw [charUpToCase_toUpper h.1]
      have := ih h.2
      simp only [upperStr] at this
      rw [this]

/-! ## Claim theorems -/

/-- C2: for every float `v`, every call to `ConstantDistribution(v).sample()`
returns exactly `v`, on every call and in any call sequence. -/
theorem ConstantDistribution_sample_constant (v : ℚ) :
    (∀ draw, sampleVal (.ConstantDistribution v) draw = v) ∧
    (∀ draws : List ℚ,
      (runSamples (.ConstantDistribution v) draws).1 =
        draws.map fun _ => v) := by
  constructor
  · intro draw; rfl
  · intro draws
    induction draws with
    | nil => rfl
    | cons x rest ih => simpa [runSamples, Distribution.sample] using ih

/-- C3: `GaussianDistribution(mean, std_dev, strictly_positive=True).sample()`
never returns a negative value: a negative underlying normal draw is clamped
to 0.0 and a non-negative draw is returned unchanged, while
`strictly_positive=False` returns the raw draw. -/
theorem GaussianDistribution_strictly_positive_clamps (m s draw : ℚ) :
    0 ≤ sampleVal (.GaussianDistribution m s true) draw ∧
    (draw < 0 → sampleVal (.GaussianDistribution m s true) draw = 0) ∧
    (0 ≤ draw → sampleVal (.GaussianDistribution m s true) draw = draw) ∧
    sampleVal (.GaussianDistribution m s false) draw = draw := by
  refine ⟨?_, ?_, ?_, rfl⟩
  · show (0 : ℚ) ≤ max draw 0
    exact le_max_right draw 0
  · intro hneg
    show max draw 0 = 0
    exact max_eq_right (le_of_lt hneg)
  · intro hpos
    show max draw 0 = draw
    exact max_eq_left hpos

/-- Witness for C3 at `mean=0`, `std_dev=1` with draws `-2` and `2`. -/
theorem GaussianDistribution_strictly_positive_clamps_witness :
    sampleVal (.GaussianDistribution 0 1 true) (-2) = 0 ∧
    sampleVal (.GaussianDistribution 0 1 true) 2 = 2 :=
  ⟨(GaussianDistribution_strictly_positive_clamps 0 1 (-2)).2.1 (by decide),
   (GaussianDistribution_strictly_positive_clamps 0 1 2).2.2.1 (by decide)⟩

/-- C4 counterexample: `ConstantDistribution(-1).sample()` returns `-1`,
a negative delay, so not every distribution instance produces non-negative
samples. -/
theorem constant_negative_sample_counterexample :
    sampleVal (.ConstantDistribution (-1)) 0 = -1 ∧
    sampleVal (.ConstantDistribution (-1)) 0 < 0 := by
  refine ⟨rfl, ?_⟩
  show (-1 : ℚ) < 0
  decide

/-- C4 amended: `sample()` is non-negative under the per-variant policy:
a Constant with non-negative value, a Gaussian with `strictly_positive=True`
(unconditionally) or with a non-negative normal draw, and the Exponential,
LogNormal and Poisson variants whenever the underlying `np.random` draw is
non-negative (which numpy guarantees for these three families). -/
theorem sample_nonneg_under_variant_policy (draw : ℚ) :
    (∀ c : ℚ, 0 ≤ c → 0 ≤ sampleVal (.ConstantDistribution c) draw) ∧
    (∀ m s : ℚ, 0 ≤ sampleVal (.GaussianDistribution m s true) draw) ∧
    (∀ m s : ℚ, 0 ≤ draw →
      0 ≤ sampleVal (.GaussianDistribution m s false) draw) ∧
    (∀ sc : ℚ, 0 ≤ draw → 0 ≤ sampleVal (.ExponentialDistribution sc) draw) ∧
    (∀ m s : ℚ, 0 ≤ draw → 0 ≤ sampleVal (.LogNormalDistribution m s) draw) ∧
    (∀ m : ℚ, 0 ≤ draw → 0 ≤ sampleVal (.PoissonDistribution m) draw) := by
  refine ⟨fun c hc => hc, fun m s => le_max_right draw 0,
    fun m s h => h, fun sc h => h, fun m s h => h, fun m h => h⟩

/-- Witness for C4 amended, at concrete parameters and draws. -/
theorem sample_nonneg_under_variant_policy_witness :
    0 ≤ sampleVal (.ConstantDistribution 2) 1 ∧
    0 ≤ sampleVal (.GaussianDistribution 0 1 true) (-3) ∧
    0 ≤ sampleVal (.ExponentialDistribution 3) 1 :=
  ⟨(sample_nonneg_under_variant_policy 1).1 2 (by decide),
   (sample_nonneg_under_variant_policy (-3)).2.1 0 1,
   (sample_nonneg_under_variant_policy 1).2.2.2.1 3 (by decide)⟩

/-- C8: `sample()` leaves every field of the distribution object unchanged,
and in a sequence of calls each output is a function of the object as
constructed and the current generator draw only — no call reads state
written by a previous call. -/
theorem sample_leaves_state_unchanged :
    (∀ (d : Distribution) (draw : ℚ), (d.sample draw).2 = d) ∧
    (∀ (d : Distribution) (draws : List ℚ),
      runSamples d draws = (draws.map fun x => (d.sample x).1, d)) := by
  refine ⟨sample_snd, ?_⟩
  intro d draws
  induction draws with
  | nil => rfl
  | cons x rest ih =>
    have hs : d.sample x = ((d.sample x).1, d) := by
      rw [Prod.ext_iff]
      exact ⟨rfl, sample_snd d x⟩
    rw [runSamples, hs]
    simp [ih]

/-- C1: for every chunk size `n > 0`, the bytes a forwarding pump delivers
to its destination are exactly the bytes read from its source, in order:
the concatenation of the forwarded chunks is the source byte sequence, and
coalescing is bounded by `n` (every chunk is non-empty and at most `n`
bytes).  Both directions of a connection run this same pump, so the
property holds symmetrically for target-to-client. -/
theorem pump_forwards_bytes_in_order (n : ℕ) (hn : 0 < n) (xs : List ℕ) :
    (pumpChunks n xs).flatten = xs ∧
    ∀ c ∈ pumpChunks n xs, c ≠ [] ∧ c.length ≤ n :=
  ⟨pumpChunks_join_bounded n hn xs.length xs le_rfl,
   pumpChunks_mem_bounded n hn xs.length xs le_rfl⟩

/-- Witness for C1: a 10-byte stream forwarded in chunks of 4. -/
theorem pump_forwards_bytes_in_order_witness :
    (pumpChunks 4 [0, 1, 2, 3, 4, 5, 6, 7, 8, 9]).flatten =
      [0, 1, 2, 3, 4, 5, 6, 7, 8, 9] ∧
    ∀ c ∈ pumpChunks 4 [0, 1, 2, 3, 4, 5, 6, 7, 8, 9],
      c ≠ [] ∧ c.length ≤ 4 :=
  pump_forwards_bytes_in_order 4 (by decide) [0, 1, 2, 3, 4, 5, 6, 7, 8, 9]

/-- C7 counterexample: under a bind oracle where `relayA` cannot bind and
`relayB` can, the start loop of `from_file` starts nothing at all — the
failure of the first relay prevents the remaining relay from being started,
and no aggregate error mechanism runs afterwards. -/
theorem bind_failure_not_independent_counterexample :
    bindOkOnlyB relayA = false ∧ bindOkOnlyB relayB = true ∧
    (startRelays bindOkOnlyB [relayA, relayB]).1 = [] := by
  refine ⟨rfl, rfl, rfl⟩

/-- C7 amended: the start loop `for p in proxies: p.start()` stops at the
first relay that fails to bind: exactly the relays before the first failure
are started (all of them when every bind succeeds), the failing relay and
every later relay are not, and the exception propagates instead of being
aggregated. -/
theorem start_loop_stops_at_first_bind_failure
    (bindOk : DuplexRelay → Bool) (rs : List DuplexRelay) :
    startRelays bindOk rs = (rs.takeWhile bindOk, rs.all bindOk) := by
  induction rs with
  | nil => rfl
  | cons r rest ih =>
    cases hb : bindOk r with
    | false => simp [startRelays, hb, List.takeWhile_cons, List.all_cons]
    | true => simp [startRelays, hb, List.takeWhile_cons, List.all_cons, ih]

/-- C9: distribution-name matching in `from_file` is case-insensitive: two
configured names that differ only in letter casing resolve to the same
entry of `avail_distributions`, or both to none. -/
theorem distribution_name_case_insensitive (n1 n2 : List Char)
    (h : strUpToCase n1 n2 = true) :
    avail_distributions (upperStr n1) = avail_distributions (upperStr n2) :=
  by rw [upperStr_eq_of_strUpToCase h]

/-- Witness for C9: `gaussiandistribution` and `GaussianDistribution`
resolve identically. -/
theorem distribution_name_case_insensitive_witness :
    avail_distributions (upperStr (("gaussiandistribution").data)) =
      avail_distributions (upperStr (("GaussianDistribution").data)) :=
  distribution_name_case_insensitive _ _ (by decide)

/-- C6 counterexample: in the two-entry configuration
`[badNameEntry, goodEntry]` the first entry fails configuration (unknown
distribution name) while the second is valid, yet no relay at all is
started — the valid sibling does not proceed. -/
theorem config_error_not_isolated_counterexample :
    processEntry badNameEntry = none ∧
    (processEntry goodEntry).isSome = true ∧
    startedRelays [badNameEntry, goodEntry] (fun _ => true) = [] := by
  refine ⟨by decide, by decide, by decide⟩

/-- C6 amended: a ConfigurationError in any `proxies` entry is detected
before any relay starts, but it aborts the whole `from_file` run: no relay,
including siblings with valid configuration, is constructed into the run's
relay list or started. -/
theorem config_error_aborts_whole_run (cfg : List ProxyEntry)
    (bindOk : DuplexRelay → Bool) (e : ProxyEntry)
    (hmem : e ∈ cfg) (hfail : processEntry e = none) :
    from_file cfg = none ∧ startedRelays cfg bindOk = [] := by
  have h := from_file_none_of_mem hmem hfail
  exact ⟨h, by simp [startedRelays, h]⟩

/-- Witness for C6 amended at the configuration `[badNameEntry]`. -/
theorem config_error_aborts_whole_run_witness :
    from_file [badNameEntry] = none ∧
    startedRelays [badNameEntry] (fun _ => true) = [] :=
  config_error_aborts_whole_run [badNameEntry] (fun _ => true) badNameEntry
    (by simp) (by decide)

/-- C10: the recognized distribution identifiers are exactly the uppercased
class names of the five `Distribution` subclasses, and a configuration
entry whose name uppercases to anything else (such as the short identifier
`Constant`) makes the whole `from_file` run fail before any relay is
constructed or started. -/
theorem registry_names_exact :
    (∀ s : List Char,
      (avail_distributions s).isSome = true ↔ s ∈ registryNames) ∧
    (∀ (cfg : List ProxyEntry) (bindOk : DuplexRelay → Bool)
        (e : ProxyEntry), e ∈ cfg →
      avail_distributions (upperStr e.distribution.name) = none →
      from_file cfg = none ∧ startedRelays cfg bindOk = []) := by
  constructor
  · intro s
    simp only [avail_distributions, registryNames]
    split_ifs with h1 h2 h3 h4 h5 <;>
      simp_all [List.mem_cons]
  · intro cfg bindOk e hmem hnone
    have hfail := processEntry_none_of_lookup_none e hnone
    have h := from_file_none_of_mem hmem hfail
    exact ⟨h, by simp [startedRelays, h]⟩

/-- Witness for C10 at the configuration `[shortNameEntry]`, whose
distribution name is the short identifier `Constant`. -/
theorem registry_names_exact_witness :
    from_file [shortNameEntry] = none ∧
    startedRelays [shortNameEntry] (fun _ => true) = [] :=
  registry_names_exact.2 [shortNameEntry] (fun _ => true) shortNameEntry
    (by simp) (by decide)

/-- C5 counterexample: `parse_IP_address("127.0.0.1:-1")` returns the pair
`("127.0.0.1", -1)` instead of raising, although `-1` is outside
`[0, 65535]` — the code asserts only the upper bound on the port. -/
theorem parse_IP_address_accepts_negative_port :
    parse_IP_address (("127.0.0.1:-1").data) =
      some ((("127.0.0.1").data), -1) ∧ (-1 : ℤ) < 0 := by
  refine ⟨by decide, by decide⟩

/-- C5 amended: `parse_IP_address` returns a pair exactly for strings of the
form `ip:port` where `ip` is a valid IPv4 literal and `port` is accepted by
Python `int()` with value at most 65535.  Negative ports (and signed,
whitespace-padded or underscore-separated ports) are accepted, and IPv6
literals are rejected because their colons break the two-part split; the
validation still happens during configuration parsing, before any relay
starts. -/
theorem parse_IP_address_characterization :
    (∀ (address ip : List Char) (p : ℤ),
      parse_IP_address address = some (ip, p) →
      ip_address_ok ip = true ∧ p ≤ 65535 ∧
      ∃ ps : List Char, address = ip ++ ':' :: ps ∧ pyInt ps = some p) ∧
    (∀ (ip ps : List Char) (p : ℤ),
      ip_address_ok ip = true → pyInt ps = some p → p ≤ 65535 →
      ':' ∉ ip → ':' ∉ ps →
      parse_IP_address (ip ++ ':' :: ps) = some (ip, p)) := by
  constructor
  · intro address ip p hp
    unfold parse_IP_address at hp
    split at hp
    · rename_i a b heq
      by_cases hip : ip_address_ok a
      · rw [if_pos hip] at hp
        split at hp
        · rename_i q heq2
          by_cases hle : q ≤ 65535
          · rw [if_pos hle] at hp
            simp only [Option.some.injEq, Prod.mk.injEq] at hp
            obtain ⟨h1, h2⟩ := hp
            subst h1
            subst h2
            exact ⟨hip, hle, b, splitOnChar_eq_pair heq, heq2⟩
          · rw [if_neg hle] at hp
            simp at hp
        · simp at hp
      · rw [if_neg hip] at hp
        simp at hp
    · simp at hp
  · intro ip ps p hip hpi hle hnip hnps
    unfold parse_IP_address
    rw [splitOnChar_append hnip hnps]
    simp [hip, hpi, hle]

/-- Witness for C5 amended: the completeness direction applied to the
address `10.0.0.2:8080`. -/
theorem parse_IP_address_characterization_witness :
    parse_IP_address ((("10.0.0.2").data) ++ ':' :: (("8080").data)) =
      some ((("10.0.0.2").data), 8080) :=
  parse_IP_address_characterization.2 (("10.0.0.2").data) (("8080").data)
    8080 (by decide) (by decide) (by decide) (by decide) (by decide)
